import Mathlib

/-!
Verification of the CRAX++ exploit-generation core against its specification.

The development shallowly embeds the core source files:
  * `MemoryManager.cpp`  (memory introspection: readConcrete, search, getMapInfo)
  * `DynamicRop.cpp`     (per-state constraint queue and trigger handler)
  * `Ret2syscall.cpp`    (technique layer: ROP subchain synthesis)
  * `CRAX.cpp`           (onSymbolicRip hijack handler)
  * `LeakBasedCoreGenerator.cpp` / `IOStates.h` (exploit generator input-state visitor)

External collaborators (the S2E engine's concrete/symbolic byte store, the
disassembler, the Ret2csu technique, the RopChainBuilder, the ELF metadata
provider) are modelled as explicit parameters: functions supplied to the
embedded definitions.  Machine integers are modelled as `Nat`; the sources
never rely on 64-bit wraparound on the verified paths, and where a bitmask is
applied (`rsp & ~(TARGET_PAGE_SIZE - 1)`) it is translated to the equivalent
arithmetic form on values below `2^64`.
-/

set_option autoImplicit false

namespace CraxCore

/-! ### Memory introspection (`MemoryManager.cpp`) -/

/-- The engine-provided byte store backing one execution state.
`isSymbolic a` models `state->mem()->symbolic(a, 1)`;
`readByte a` models a 1-byte `state->mem()->read(a, buf, 1)` (`none` = fault);
`readBulk a n` models the bulk `state->mem()->read(a, buf, n)` used by the
`concretize=true` branch; `isMapped a` models
`state->mem()->getHostAddress(a) != -1`. -/
structure MemEnv where
  isSymbolic : Nat → Bool
  readByte : Nat → Option Nat
  readBulk : Nat → Nat → Option (List Nat)
  isMapped : Nat → Bool

namespace MemoryManager

/-- The byte-by-byte loop of `MemoryManager::readConcrete` with
`concretize = false`: symbolic bytes are skipped (their slot keeps the
zero-initialized value of `std::vector<uint8_t> ret(size)`), and a failing
1-byte read clears the whole result (modelled as `none`). -/
def readBytesFrom (env : MemEnv) (virtAddr : Nat) : Nat → Option (List Nat)
  | 0 => some []
  | n + 1 =>
    if env.isSymbolic virtAddr then
      (readBytesFrom env (virtAddr + 1) n).map (0 :: ·)
    else
      match env.readByte virtAddr with
      | some b => (readBytesFrom env (virtAddr + 1) n).map (b :: ·)
      | none => none

/-- `MemoryManager::readConcrete(virtAddr, size, concretize)`.  On a memory
fault the source logs a warning and returns the cleared (empty) vector. -/
def readConcrete (env : MemEnv) (virtAddr size : Nat) (concretize : Bool) : List Nat :=
  if concretize then
    match env.readBulk virtAddr size with
    | some bytes => bytes
    | none => []
  else
    match readBytesFrom env virtAddr size with
    | some bytes => bytes
    | none => []

end MemoryManager

/-- `MemoryRegion { start, end, prot }`, a half-open address range.
`end` is a Lean keyword, hence the field name `end_`. -/
structure MemoryRegion where
  start : Nat
  end_ : Nat
  prot : Nat
deriving DecidableEq, Repr

/-- Permission bit `MM_READ` (flag values are not fixed by the core sources;
the claims never depend on them). -/
def MM_READ : Nat := 1

/-- Permission bit `MM_WRITE`. -/
def MM_WRITE : Nat := 2

/-- Two half-open regions overlap when each one starts before the other ends. -/
def overlaps (r1 r2 : MemoryRegion) : Prop :=
  r1.start < r2.end_ ∧ r2.start < r1.end_

instance (r1 r2 : MemoryRegion) : Decidable (overlaps r1 r2) := by
  unfold overlaps; infer_instance

/-- Insertion into the `std::set<MemoryRegion, MemoryRegionCmp>` used by
`getMapInfo`.  Per the spec the set is keyed by the start address, so an
insert whose key is already present is a no-op. -/
def setInsert : List MemoryRegion → MemoryRegion → List MemoryRegion
  | [], r => [r]
  | x :: xs, r =>
    if r.start < x.start then r :: x :: xs
    else if x.start < r.start then x :: setInsert xs r
    else x :: xs

namespace MemoryManager

/-- `TARGET_PAGE_SIZE`. -/
def pageSize : Nat := 4096

/-- `rsp & ~(TARGET_PAGE_SIZE - 1)` — on 64-bit values this clears the low
12 bits, i.e. rounds down to a page boundary. -/
def pageAlign (x : Nat) : Nat := x / pageSize * pageSize

/-- The loop `while (isMapped(stackBegin)) stackBegin -= TARGET_PAGE_SIZE;`
probing downwards page by page.  The C loop has no bound; the model carries
explicit fuel, and every theorem assumes the probe hits an unmapped page
within fuel. -/
def probeDown (im : Nat → Bool) : Nat → Nat → Nat
  | 0, a => a
  | fuel + 1, a => if im a then probeDown im fuel (a - pageSize) else a

/-- The loop `while (isMapped(stackEnd)) stackEnd += TARGET_PAGE_SIZE;`
probing upwards page by page. -/
def probeUp (im : Nat → Bool) : Nat → Nat → Nat
  | 0, a => a
  | fuel + 1, a => if im a then probeUp im fuel (a + pageSize) else a

/-- The stack region synthesized by `MemoryManager::getMapInfo`: probe down
from the stack-pointer page to the first unmapped page and step one page back
up, probe up to the first unmapped page and step one page back down. -/
def stackRegion (im : Nat → Bool) (rsp fuel : Nat) : MemoryRegion :=
  { start := probeDown im fuel (pageAlign rsp) + pageSize
    end_ := probeUp im fuel (pageAlign rsp) - pageSize
    prot := MM_READ + MM_WRITE }

/-- `MemoryManager::getMapInfo(pid)`: insert every region reported by the
engine's `MemoryMap::iterateRegions` into the set, then insert the
synthesized stack region.  `engineRegions` is the callback-order list of
reported regions. -/
def getMapInfo (engineRegions : List MemoryRegion) (im : Nat → Bool)
    (rsp fuel : Nat) : List MemoryRegion :=
  setInsert (engineRegions.foldl setInsert []) (stackRegion im rsp fuel)

end MemoryManager

/-- Modelled from the spec: `kmp` (from `Utils/Algorithm.h`, which is not part
of the provided sources) is a linear-time substring search with
Knuth-Morris-Pratt semantics returning every offset at which `needle` occurs
in `haystack`. -/
def kmp (haystack needle : List Nat) : List Nat :=
  (List.range (haystack.length + 1 - needle.length)).filter
    (fun i => (haystack.drop i).take needle.length == needle)

namespace MemoryManager

/-- The loop `while (!isMapped(region.start) && region.start < region.end)
++region.start;` of `MemoryManager::search`, which skips the inaccessible
front of a region byte by byte. -/
def skipFront (im : Nat → Bool) (s e : Nat) : Nat :=
  if h : im s = false ∧ s < e then skipFront im (s + 1) e else s
termination_by e - s
decreasing_by omega

/-- The haystack `search` reads for one region: a non-concretizing
`readConcrete` over the accessible part of the region. -/
def regionHaystack (env : MemEnv) (s e : Nat) : List Nat :=
  readConcrete env s (e - s) false

/-- The per-region body of `MemoryManager::search`: skip the inaccessible
front, drop the region if nothing is left, otherwise run `kmp` over the
concretely-read haystack and rebase the offsets by the region start. -/
def searchRegion (env : MemEnv) (needle : List Nat) (r : MemoryRegion) : List Nat :=
  let s := skipFront env.isMapped r.start r.end_
  if s ≥ r.end_ then []
  else (kmp (regionHaystack env s r.end_) needle).map (· + s)

/-- `MemoryManager::search(needle)` iterates over the mapped regions
(the result of `getMapInfo(pid)`) and appends each region's matches. -/
def searchInRegions (env : MemEnv) (regions : List MemoryRegion)
    (needle : List Nat) : List Nat :=
  regions.foldl (fun acc r => acc ++ searchRegion env needle r) []

end MemoryManager

/-! ### Dynamic constraint applier (`DynamicRop.cpp`) -/

/-- Registers: the handler only distinguishes the control-flow register
`Register::X64::RIP` from everything else. -/
inductive Register where
  | rip : Register
  | other : String → Register
deriving DecidableEq, Repr

/-- The klee expressions attached to dynamic-ROP constraints, as far as the
handler inspects them: `dyn_cast<ConstantExpr>` succeeds exactly on
`constExpr`. -/
inductive DExpr where
  | constExpr : Nat → DExpr
  | symbolic : Nat → DExpr
deriving DecidableEq, Repr

/-- `DynamicRop::RegisterConstraint { reg, expr }`. -/
structure RegisterConstraint where
  reg : Register
  expr : DExpr
deriving DecidableEq, Repr

/-- `DynamicRop::MemoryConstraint { addr, expr }`. -/
structure MemoryConstraint where
  addr : Nat
  expr : DExpr
deriving DecidableEq, Repr

/-- `DynamicRop::Constraint`, a tagged union of the two constraint kinds. -/
inductive Constraint where
  | register : RegisterConstraint → Constraint
  | memory : MemoryConstraint → Constraint
deriving DecidableEq, Repr

/-- A region of the `VirtualMemoryMap` consulted by the rebasing check;
unlike `MemoryRegion` it carries the owning module's name. -/
structure VmRegion where
  start : Nat
  end_ : Nat
  moduleName : String
deriving DecidableEq, Repr

/-- Modelled from the spec: `VirtualMemoryMap::s_elfLabel`, the module label
of the primary ELF image (the class is not part of the provided sources;
the claims only depend on the label being a fixed distinguished string). -/
def s_elfLabel : String := "target"

/-- Modelled from the spec: `mapInfo.find(addr)` on the virtual memory map,
whose transparent comparator locates the region containing the address. -/
def vmFind (regions : List VmRegion) (addr : Nat) : Option VmRegion :=
  regions.find? (fun r => decide (r.start ≤ addr ∧ addr < r.end_))

/-- The external collaborators of `DynamicRop::applyNextConstraintGroup`:
the user-configured ELF base (`0` = unset, matching the truthiness test in
the source), the virtual memory map, `ELF::rebaseAddress`, and the results
of `RopChainBuilder::addRegisterConstraint` / `addMemoryConstraint`. -/
structure DynRopEnv where
  userElfBase : Nat
  mapInfo : List VmRegion
  rebaseAddress : Nat → Nat → Nat
  applyOk : Constraint → Bool

/-- `dyn_cast<ConstantExpr>(rc->expr)` followed by `getZExtValue()`. -/
def ceValue : DExpr → Option Nat
  | .constExpr v => some v
  | .symbolic _ => none

/-- The `isElfAddress` test of the handler: the region containing the value
exists and is labelled as the primary ELF image. -/
def isElfAddressAt (env : DynRopEnv) (v : Nat) : Bool :=
  match vmFind env.mapInfo v with
  | some r => r.moduleName == s_elfLabel
  | none => false

/-- What the handler does to one constraint, as an observable action:
which expression is injected as a state constraint, and which expression the
target register/address is re-marked symbolic with afterwards. -/
inductive AppliedAction where
  | regC : Register → DExpr → DExpr → AppliedAction
  | memC : Nat → DExpr → DExpr → AppliedAction
deriving DecidableEq, Repr

/-- The per-constraint body of `DynamicRop::applyNextConstraintGroup`.
For a register constraint, `e1` is the (possibly rebased) injected
expression and `e2` the original expression written back symbolically.
When `rc->expr` is not a `ConstantExpr` the source dereferences a null
`ce` (undefined behaviour); the model takes the no-rebase branch there. -/
def applyConstraintAction (env : DynRopEnv) : Constraint → AppliedAction
  | .register rc =>
    let e1 :=
      match ceValue rc.expr with
      | some v =>
        if env.userElfBase != 0 && isElfAddressAt env v then
          DExpr.constExpr (env.rebaseAddress v env.userElfBase)
        else rc.expr
      | none => rc.expr
    .regC rc.reg e1 rc.expr
  | .memory mc => .memC mc.addr mc.expr mc.expr

/-- Whether a constraint targets RIP (`hasRipConstraint |= ...`). -/
def isRipConstraint : Constraint → Bool
  | .register rc => rc.reg == .rip
  | .memory _ => false

/-- `DynamicRop::addConstraint`: append to the in-progress group. -/
def addConstraint (cur : List Constraint) (c : Constraint) : List Constraint :=
  cur ++ [c]

/-- `DynamicRop::commitConstraints`: move the in-progress group onto the
state's queue (leaving the in-progress group empty). -/
def commitConstraints (cur : List Constraint) (queue : List (List Constraint)) :
    List Constraint × List (List Constraint) :=
  ([], queue ++ [cur])

/-- The observable outcome of one `applyNextConstraintGroup` trigger. -/
structure ApplyResult where
  queue : List (List Constraint)
  actions : List AppliedAction
  warned : Bool
  terminatedState : Bool
  threwCpuExit : Bool
deriving DecidableEq, Repr

/-- `DynamicRop::applyNextConstraintGroup`: with an empty queue, log a
warning and return; otherwise apply every constraint of the front group in
order (`terminateState` is requested for any failing constraint; the engine
call is external, so it is recorded as a flag), pop the group, and throw
`CpuExitException` if any applied constraint targeted RIP. -/
def applyNextConstraintGroup (env : DynRopEnv) (queue : List (List Constraint)) :
    ApplyResult :=
  match queue with
  | [] => { queue := [], actions := [], warned := true,
            terminatedState := false, threwCpuExit := false }
  | g :: rest =>
    { queue := rest
      actions := g.map (applyConstraintAction env)
      warned := false
      terminatedState := g.any (fun c => !env.applyOk c)
      threwCpuExit := g.any isRipConstraint }

/-! ### Hijack handler (`CRAX::onSymbolicRip`) -/

/-- The observable steps of `CRAX::onSymbolicRip`. -/
inductive RipEvent where
  | setCurrentState
  | logDetected
  | setRipSymbolic
  | showRegInfo
  | showMapInfo
  | emitExploitGenerationHooks
  | terminateState
deriving DecidableEq, Repr

/-- How the synchronously-emitted hook chain of the hijack path behaves:
it either throws (e.g. the `CpuExitException` of the dynamic-ROP trigger,
which the handler does not catch) or completes with some generation
success/failure outcome. -/
inductive HookOutcome where
  | threw : HookOutcome
  | completed : Bool → HookOutcome
deriving DecidableEq, Repr

/-- `CRAX::onSymbolicRip`: ignore non-PC reasons; otherwise select the
state, log, pin the symbolic RIP, dump registers and the memory map, emit
the exploit-generation hooks, and terminate the state.  A hook exception
propagates (there is no catch), skipping the terminate call. -/
def onSymbolicRip (reasonIsPC : Bool) (outcome : HookOutcome) : List RipEvent :=
  if reasonIsPC = false then []
  else
    [.setCurrentState, .logDetected, .setRipSymbolic, .showRegInfo,
     .showMapInfo, .emitExploitGenerationHooks] ++
    match outcome with
    | .threw => []
    | .completed _ => [.terminateState]

/-! ### Technique layer (`Ret2syscall.cpp`) -/

/-- The `BaseType` template argument of `BaseOffsetExpr::create`. -/
inductive BaseType where
  | VAR | SYM | GOT | BSS
deriving DecidableEq, Repr

/-- Exploit-payload expressions, as built by the technique:
`ConstantExpr::create(v, w)`, `ByteVectorExpr::create(bytes)`, and
`BaseOffsetExpr::create<kind>(elf, identifier)` (the BSS form takes no
identifier; it is modelled with the empty string). -/
inductive Expr where
  | constant : Nat → Nat → Expr
  | byteVector : List Nat → Expr
  | baseOffset : BaseType → String → Expr
deriving DecidableEq, Repr

/-- One `RopSubchain`: an ordered list of payload expressions. -/
abbrev RopSubchain := List Expr

/-- Modelled from the spec: `ljust(s, n, fill)` (from the string utilities,
not part of the provided sources) right-pads `s` with `fill` to length `n`. -/
def ljust (s : List Nat) (n : Nat) (fill : Nat) : List Nat :=
  s ++ List.replicate (n - s.length) fill

/-- The bytes of the string literal used by the technique: `/bin/sh`. -/
def binsh : List Nat := [0x2f, 0x62, 0x69, 0x6e, 0x2f, 0x73, 0x68]

namespace Ret2syscall

/-- `Ret2syscall::getRopSubchains`.  The lower-level `Ret2csu` technique is
an external collaborator: `ret2csu gadget a1 a2 a3` stands for
`ret2csu->getRopSubchains(m_syscallGadget, a1, a2, a3)` and the source takes
element `[0]` of its result (modelled as `headD []`; the Ret2csu
implementation always returns a non-empty vector).  `lsb` is the value of
`getLsbOfReadSyscall()`. -/
def getRopSubchains
    (ret2csu : Expr → Expr → Expr → Expr → List RopSubchain)
    (syscallGadget : Expr) (lsb : Nat) : List RopSubchain :=
  let part1 := (ret2csu syscallGadget (.constant 0 64)
      (.baseOffset .GOT "read") (.constant 1 64)).headD []
  let part2 := (ret2csu syscallGadget (.constant 1 64)
      (.constant 0 64) (.constant 0 64)).headD []
  let part3 := (ret2csu syscallGadget (.constant 0 64)
      (.baseOffset .BSS "") (.constant 59 64)).headD []
  let part4 := (ret2csu syscallGadget (.baseOffset .BSS "")
      (.constant 0 64) (.constant 0 64)).headD []
  let ret1 : RopSubchain :=
    Expr.constant 0 64 :: (part1 ++ part2 ++ part3 ++ part4)
  let ret2 : RopSubchain := [Expr.byteVector [lsb]]
  let ret3 : RopSubchain := [Expr.byteVector (ljust binsh 59 0x00)]
  [ret1, ret2, ret3]

/-- One disassembled instruction, as far as `getLsbOfReadSyscall` inspects
it (the disassembler is an external collaborator, so the routine's decoded
instruction list is a parameter). -/
structure Instr where
  address : Nat
  mnemonic : String
deriving DecidableEq, Repr

/-- `Ret2syscall::getLsbOfReadSyscall`: scan the disassembly of libc's
`__read` (starting at its resolved address `faddr`) for the first `syscall`
instruction; assert that its address agrees with `faddr` on the `0xff00`
byte (`none` models the fatal assertion failure) and return its low byte.
If no `syscall` instruction is found, `syscallOffset` keeps its initial
`(uint64_t)-1` and the low byte `0xff` is returned. -/
def getLsbOfReadSyscall (insns : List Instr) (faddr : Nat) : Option Nat :=
  match insns.find? (fun i => i.mnemonic == "syscall") with
  | some i =>
    if i.address &&& 0xff00 == faddr &&& 0xff00 then
      some (i.address &&& 0xff)
    else none
  | none => some ((2 ^ 64 - 1) &&& 0xff)

end Ret2syscall

/-! ### Exploit generator (`LeakBasedCoreGenerator.cpp`, `IOStates.h`) -/

/-- The fields of `IOStates::State` consulted by the input-state visitor.
In the source the two index fields are `uint32_t`, and
`lastInputStateInfoIdxBeforeFirstSymbolicRip` is initialized to `-1`
(i.e. `4294967295`) until the first symbolic RIP is seen. -/
structure IOStatesState where
  lastInputStateInfoIdx : Nat
  lastInputStateInfoIdxBeforeFirstSymbolicRip : Nat
deriving DecidableEq, Repr

/-- Modelled from the spec: the `InputStream` over the stage-1 payload
(`InputStream.h` is not part of the provided sources).  `read n` consumes
and returns the next `n` bytes; `skip n` consumes `n` bytes without
returning them. -/
structure InputStream where
  stage1 : List Nat
  nrBytesRead : Nat
  nrBytesSkipped : Nat
deriving DecidableEq, Repr

namespace InputStream

/-- Total bytes consumed so far. -/
def getNrBytesConsumed (s : InputStream) : Nat :=
  s.nrBytesRead + s.nrBytesSkipped

/-- `inputStream.skip(n)`. -/
def skip (s : InputStream) (n : Nat) : InputStream :=
  { s with nrBytesSkipped := s.nrBytesSkipped + n }

/-- `inputStream.read(n)`. -/
def read (s : InputStream) (n : Nat) : List Nat × InputStream :=
  ((s.stage1.drop s.getNrBytesConsumed).take n,
   { s with nrBytesRead := s.nrBytesRead + n })

end InputStream

/-- The operations the visitor emits into the exploit script sink.  The
exact formatted text (via the external `format`/`StringUtil` helpers and the
external expression evaluator) is abbreviated to fixed tags; the claims only
distinguish the operation kinds and the sent bytes. -/
inductive ExploitOp where
  | writeline : String → ExploitOp
  | sendBytes : List Nat → ExploitOp
  | ropPayload : String → ExploitOp
  | flushRopPayload : ExploitOp
deriving DecidableEq, Repr

/-- Whether an emitted operation is a `proc.send(...)` line. -/
def ExploitOp.isSend : ExploitOp → Bool
  | .sendBytes _ => true
  | _ => false

/-- External inputs of the generator: the target's checksec flags and the
external evaluator rendering a `ByteVectorExpr` (respectively the
`solve_stage1` placeholder line) to script text. -/
structure GenEnv where
  hasCanary : Bool
  hasPIE : Bool
  evalByteVector : List Nat → String
  stage1SolveRepr : String

/-- `IOStateInfoVisitor::shouldSkipInputState`.  The source first asserts
`-1 != modState.lastInputStateInfoIdxBeforeFirstSymbolicRip`; the theorems
carry that assertion as a hypothesis. -/
def shouldSkipInputState (ms : IOStatesState) (i : Nat) : Bool :=
  i != ms.lastInputStateInfoIdx &&
    decide (ms.lastInputStateInfoIdxBeforeFirstSymbolicRip ≤ i)

/-- `IOStateInfoVisitor::handleStage1`: with neither canary nor PIE the
stage-1 bytes are read from the input stream and emitted verbatim; otherwise
a runtime-solved placeholder is emitted and the stream is left untouched. -/
def handleStage1 (env : GenEnv) (stream : InputStream) (offset : Nat) :
    List ExploitOp × InputStream :=
  if !env.hasCanary && !env.hasPIE then
    let (bytes, s1) := stream.read offset
    ([.ropPayload (env.evalByteVector bytes), .flushRopPayload], s1)
  else
    ([.ropPayload env.stage1SolveRepr, .flushRopPayload], stream)

/-- `IOStateInfoVisitor::operator()(const InputStateInfo &)`.  `ropChain`
carries the already-evaluated payload text of each subchain expression
(evaluation is external).  The skip branch consumes the state's bytes from
the input stream without emitting any send; the ordinary branch reads and
sends them; the rop-chain-injection branch emits stage 1 and then every
remaining subchain as raw payload. -/
def visitInputState (env : GenEnv) (ms : IOStatesState)
    (ropChain : List (List String)) (i offset : Nat) (stream : InputStream) :
    List ExploitOp × InputStream :=
  if shouldSkipInputState ms i then
    ([.writeline "input state, skipped"], stream.skip offset)
  else if i != ms.lastInputStateInfoIdx then
    let (bytes, s1) := stream.read offset
    ([.writeline "input state", .sendBytes bytes], s1)
  else
    let (ops1, s1) := handleStage1 env stream offset
    (ExploitOp.writeline "input state" ::
       ExploitOp.writeline "input state, rop chain begin" :: ops1 ++
       ((ropChain.drop 1).map
         (fun sub => sub.map ExploitOp.ropPayload ++ [ExploitOp.flushRopPayload])).flatten,
     s1)

/-! ### Claim C1: the per-state constraint queue is strict FIFO -/

/-- Claim C1: after `commitConstraints` for group G1 and then for group G2 on
the same state, two invocations of `applyNextConstraintGroup` apply every
constraint of G1 (in order) before any constraint of G2; and a trigger on an
empty queue only logs a warning and changes nothing — it neither terminates
the state nor throws. -/
theorem constraint_queue_fifo (env : DynRopEnv) (G1 G2 : List Constraint) :
    (let q1 := (commitConstraints G1 []).2
     let q2 := (commitConstraints G2 q1).2
     let r1 := applyNextConstraintGroup env q2
     let r2 := applyNextConstraintGroup env r1.queue
     r1.actions = G1.map (applyConstraintAction env) ∧
       r2.actions = G2.map (applyConstraintAction env) ∧
       r1.warned = false ∧ r2.warned = false ∧ r2.queue = []) ∧
    applyNextConstraintGroup env [] =
      { queue := [], actions := [], warned := true,
        terminatedState := false, threwCpuExit := false } :=
  ⟨⟨rfl, rfl, rfl, rfl, rfl⟩, rfl⟩

/-! ### Claim C2: the Ret2syscall technique returns exactly three subchains -/

/-- Claim C2: `Ret2syscall::getRopSubchains` returns exactly 3 subchains.
The first is a single leading zero 64-bit constant followed, in order, by
the ret2csu fragments for `read(0, got[read], 1)`, `syscall(1, 0, 0)`,
`read(0, bss, 59)` and `execve(bss, 0, 0)`, concatenated; the second is a
one-byte blob; the third is the byte string `/bin/sh` right-padded with
`0x00` to exactly 59 bytes. -/
theorem ret2syscall_three_subchains
    (ret2csu : Expr → Expr → Expr → Expr → List RopSubchain)
    (syscallGadget : Expr) (lsb : Nat) :
    Ret2syscall.getRopSubchains ret2csu syscallGadget lsb =
      [Expr.constant 0 64 ::
         ((ret2csu syscallGadget (.constant 0 64) (.baseOffset .GOT "read")
             (.constant 1 64)).headD [] ++
          (ret2csu syscallGadget (.constant 1 64) (.constant 0 64)
             (.constant 0 64)).headD [] ++
          (ret2csu syscallGadget (.constant 0 64) (.baseOffset .BSS "")
             (.constant 59 64)).headD [] ++
          (ret2csu syscallGadget (.baseOffset .BSS "") (.constant 0 64)
             (.constant 0 64)).headD []),
       [Expr.byteVector [lsb]],
       [Expr.byteVector (binsh ++ List.replicate 52 0x00)]] ∧
    (Ret2syscall.getRopSubchains ret2csu syscallGadget lsb).length = 3 ∧
    [lsb].length = 1 ∧
    (binsh ++ List.replicate 52 0x00).length = 59 ∧
    (binsh ++ List.replicate 52 0x00).take 7 = binsh ∧
    ∀ b ∈ (binsh ++ List.replicate 52 0x00).drop 7, b = 0 :=
  ⟨rfl, rfl, rfl, by decide, by decide, by decide⟩

/-! ### Claim C3: the hijack handler terminates the state once hooks ran -/

/-- Claim C3: once the control-flow-hijack handler (symbolic program counter
detected) has run the exploit-generation hooks to completion, it terminates
the originating state unconditionally: for every generation outcome
(success or failure alike) the handler's trace ends with state
termination. -/
theorem symbolic_rip_always_terminates (generationSucceeded : Bool) :
    onSymbolicRip true (.completed generationSucceeded) =
      [.setCurrentState, .logDetected, .setRipSymbolic, .showRegInfo,
       .showMapInfo, .emitExploitGenerationHooks, .terminateState] ∧
    (onSymbolicRip true (.completed generationSucceeded)).getLast? =
      some .terminateState :=
  ⟨rfl, rfl⟩

/-! ### Claim C4: constant ELF addresses are rebased, others never -/

/-- Claim C4: when `applyNextConstraintGroup` processes a register
constraint whose value is a constant address inside the primary ELF image
and a user-specified ELF base is configured, it injects the constant
rewritten by `ELF::rebaseAddress` to the user-declared runtime base, and
afterwards re-marks the register symbolic with the original un-rebased
expression; a constant address inside any other loaded module is injected
unchanged (never rebased). -/
theorem register_constraint_rebase (env : DynRopEnv) (reg : Register)
    (v : Nat) (r : VmRegion) (hfind : vmFind env.mapInfo v = some r) :
    (env.userElfBase ≠ 0 → r.moduleName = s_elfLabel →
       applyConstraintAction env (.register ⟨reg, .constExpr v⟩) =
         .regC reg (.constExpr (env.rebaseAddress v env.userElfBase))
           (.constExpr v)) ∧
    (r.moduleName ≠ s_elfLabel →
       applyConstraintAction env (.register ⟨reg, .constExpr v⟩) =
         .regC reg (.constExpr v) (.constExpr v)) := by
  constructor
  · intro h1 h2
    simp [applyConstraintAction, ceValue, isElfAddressAt, hfind, h1, h2]
  · intro h2
    simp [applyConstraintAction, ceValue, isElfAddressAt, hfind, h2]

/-- A concrete rebasing environment: a user-specified ELF base, one region
belonging to the primary ELF image and one belonging to another module. -/
def envC4 : DynRopEnv :=
  { userElfBase := 28672
    mapInfo := [⟨4194304, 4198400, "target"⟩, ⟨5242880, 5246976, "libc"⟩]
    rebaseAddress := fun a b => a + b
    applyOk := fun _ => true }

theorem register_constraint_rebase_witness :
    applyConstraintAction envC4 (.register ⟨.rip, .constExpr 4194595⟩) =
      .regC .rip (.constExpr 4223267) (.constExpr 4194595) ∧
    applyConstraintAction envC4 (.register ⟨.rip, .constExpr 5243171⟩) =
      .regC .rip (.constExpr 5243171) (.constExpr 5243171) :=
  ⟨(register_constraint_rebase envC4 .rip 4194595 ⟨4194304, 4198400, "target"⟩
      (by decide)).1 (by decide) rfl,
   (register_constraint_rebase envC4 .rip 5243171 ⟨5242880, 5246976, "libc"⟩
      (by decide)).2 (by decide)⟩

/-! ### Claim C8: resolving the redirect byte of libc `__read` -/

/-- Claim C8: `getLsbOfReadSyscall` scans the disassembly of the libc
routine for the first `syscall` instruction; when that instruction's address
agrees with the routine's entry address on the `0xff00` byte it returns the
instruction's low byte, and when it disagrees the assertion fails fatally
(modelled as `none`). -/
theorem read_syscall_lsb (insns : List Ret2syscall.Instr) (faddr : Nat)
    (inst : Ret2syscall.Instr)
    (hfind : insns.find? (fun i => i.mnemonic == "syscall") = some inst) :
    (inst.address &&& 0xff00 = faddr &&& 0xff00 →
       Ret2syscall.getLsbOfReadSyscall insns faddr =
         some (inst.address &&& 0xff)) ∧
    (inst.address &&& 0xff00 ≠ faddr &&& 0xff00 →
       Ret2syscall.getLsbOfReadSyscall insns faddr = none) := by
  constructor <;> intro h <;>
    simp [Ret2syscall.getLsbOfReadSyscall, hfind, h]

theorem read_syscall_lsb_witness :
    Ret2syscall.getLsbOfReadSyscall
        [⟨4096, "mov"⟩, ⟨4101, "syscall"⟩, ⟨4112, "syscall"⟩] 4098 =
      some 5 ∧
    Ret2syscall.getLsbOfReadSyscall
        [⟨4096, "mov"⟩, ⟨4101, "syscall"⟩, ⟨4112, "syscall"⟩] 8192 = none :=
  ⟨(read_syscall_lsb _ 4098 ⟨4101, "syscall"⟩ (by decide)).1 (by decide),
   (read_syscall_lsb _ 8192 ⟨4101, "syscall"⟩ (by decide)).2 (by decide)⟩

/-! ### Claim C9: post-hijack input states are skipped without a send -/

/-- Claim C9: an input state whose index is at or after the tracker's
last-input-index-before-first-symbolic-RIP but is not the designated
rop-chain-injection input index is skipped: its bytes are consumed from the
input stream (`skip`), and no send operation is emitted for it.  The
hypothesis on `4294967295` is the source's assertion that the
before-first-symbolic-RIP index has been set (it is a `uint32_t`
initialized to `-1`). -/
theorem skipped_input_state_no_send (env : GenEnv) (ms : IOStatesState)
    (ropChain : List (List String)) (i offset : Nat) (stream : InputStream)
    (hAssert : ms.lastInputStateInfoIdxBeforeFirstSymbolicRip ≠ 4294967295)
    (hGe : ms.lastInputStateInfoIdxBeforeFirstSymbolicRip ≤ i)
    (hNe : i ≠ ms.lastInputStateInfoIdx) :
    (∀ op ∈ (visitInputState env ms ropChain i offset stream).1,
       op.isSend = false) ∧
    (visitInputState env ms ropChain i offset stream).2 = stream.skip offset ∧
    (stream.skip offset).nrBytesSkipped = stream.nrBytesSkipped + offset := by
  have hskip : shouldSkipInputState ms i = true := by
    simp [shouldSkipInputState, hNe, hGe]
  refine ⟨?_, ?_, rfl⟩
  · intro op hop
    simp [visitInputState, hskip] at hop
    subst hop
    rfl
  · simp [visitInputState, hskip]

/-! ### Helper lemmas for `readConcrete` -/

/-- The byte-by-byte read fails exactly when some byte in range is
non-symbolic yet faults. -/
theorem readBytesFrom_none_iff (env : MemEnv) :
    ∀ (n addr : Nat),
      MemoryManager.readBytesFrom env addr n = none ↔
        ∃ i, i < n ∧ env.isSymbolic (addr + i) = false ∧
          env.readByte (addr + i) = none := by
  intro n
  induction n with
  | zero =>
    intro addr
    simp [MemoryManager.readBytesFrom]
  | succ n ih =>
    intro addr
    constructor
    · intro h
      rw [MemoryManager.readBytesFrom] at h
      by_cases hs : env.isSymbolic addr = true
      · rw [if_pos hs, Option.map_eq_none'] at h
        obtain ⟨i, hi, h1, h2⟩ := (ih (addr + 1)).1 h
        refine ⟨i + 1, by omega, ?_, ?_⟩
        · rw [show addr + (i + 1) = addr + 1 + i from by omega]; exact h1
        · rw [show addr + (i + 1) = addr + 1 + i from by omega]; exact h2
      · have hs' : env.isSymbolic addr = false := by simpa using hs
        rw [if_neg hs] at h
        cases hr : env.readByte addr with
        | none => exact ⟨0, by omega, by simpa using hs', by simpa using hr⟩
        | some b =>
          rw [hr, Option.map_eq_none'] at h
          obtain ⟨i, hi, h1, h2⟩ := (ih (addr + 1)).1 h
          refine ⟨i + 1, by omega, ?_, ?_⟩
          · rw [show addr + (i + 1) = addr + 1 + i from by omega]; exact h1
          · rw [show addr + (i + 1) = addr + 1 + i from by omega]; exact h2
    · rintro ⟨i, hi, h1, h2⟩
      rw [MemoryManager.readBytesFrom]
      cases i with
      | zero =>
        have h1' : env.isSymbolic addr = false := by simpa using h1
        have h2' : env.readByte addr = none := by simpa using h2
        rw [if_neg (by simp [h1']), h2']
      | succ j =>
        have hj : MemoryManager.readBytesFrom env (addr + 1) n = none := by
          refine (ih (addr + 1)).2 ⟨j, by omega, ?_, ?_⟩
          · rw [show addr + 1 + j = addr + (j + 1) from by omega]; exact h1
          · rw [show addr + 1 + j = addr + (j + 1) from by omega]; exact h2
        by_cases hs : env.isSymbolic addr = true
        · rw [if_pos hs, hj]; rfl
        · rw [if_neg hs]
          cases hr : env.readByte addr with
          | none => rfl
          | some b => rw [hj]; rfl

/-- On success the byte-by-byte read returns exactly `n` bytes: a zero at
every symbolic position and the engine's byte everywhere else. -/
theorem readBytesFrom_get (env : MemEnv) :
    ∀ (n addr : Nat) (l : List Nat),
      MemoryManager.readBytesFrom env addr n = some l →
      l.length = n ∧ ∀ i, i < n →
        l[i]? = if env.isSymbolic (addr + i) then some 0
                else env.readByte (addr + i) := by
  intro n
  induction n with
  | zero =>
    intro addr l h
    simp [MemoryManager.readBytesFrom] at h
    subst h
    simp
  | succ n ih =>
    intro addr l h
    rw [MemoryManager.readBytesFrom] at h
    by_cases hs : env.isSymbolic addr = true
    · rw [if_pos hs, Option.map_eq_some'] at h
      obtain ⟨t, ht, rfl⟩ := h
      obtain ⟨hlen, hget⟩ := ih (addr + 1) t ht
      refine ⟨by simp [hlen], ?_⟩
      intro i hi
      cases i with
      | zero => simp [hs]
      | succ j =>
        have hg := hget j (by omega)
        rw [show addr + 1 + j = addr + (j + 1) from by omega] at hg
        simpa using hg
    · have hs' : env.isSymbolic addr = false := by simpa using hs
      rw [if_neg hs] at h
      cases hr : env.readByte addr with
      | none => rw [hr] at h; cases h
      | some b =>
        rw [hr, Option.map_eq_some'] at h
        obtain ⟨t, ht, rfl⟩ := h
        obtain ⟨hlen, hget⟩ := ih (addr + 1) t ht
        refine ⟨by simp [hlen], ?_⟩
        intro i hi
        cases i with
        | zero => simp [hs', hr]
        | succ j =>
          have hg := hget j (by omega)
          rw [show addr + 1 + j = addr + (j + 1) from by omega] at hg
          simpa using hg

/-- With `concretize = false`, `readConcrete` unfolds to the byte loop. -/
theorem readConcrete_false_eq (env : MemEnv) (addr size : Nat) :
    MemoryManager.readConcrete env addr size false =
      match MemoryManager.readBytesFrom env addr size with
      | some bytes => bytes
      | none => [] :=
  rfl

/-- The result of a non-concretizing read never exceeds the request. -/
theorem readConcrete_length_le (env : MemEnv) (addr size : Nat) :
    (MemoryManager.readConcrete env addr size false).length ≤ size := by
  rw [readConcrete_false_eq]
  cases h : MemoryManager.readBytesFrom env addr size with
  | none => simp
  | some l => simp [(readBytesFrom_get env size addr l h).1]

/-! ### Claim C7: symbolic bytes are skipped, faults clear the result -/

/-- Claim C7: `readConcrete(addr, size, concretize=false)` never fails
merely because some bytes are symbolic — it skips each symbolic byte and
returns the concretely-readable content at non-symbolic positions — and it
returns an empty (cleared) result exactly when a genuine memory fault hits
a non-symbolic byte in range. -/
theorem readConcrete_skips_symbolic (env : MemEnv) (addr size : Nat)
    (hpos : 0 < size) :
    (MemoryManager.readConcrete env addr size false = [] ↔
       ∃ i, i < size ∧ env.isSymbolic (addr + i) = false ∧
         env.readByte (addr + i) = none) ∧
    ((∀ i, i < size → env.isSymbolic (addr + i) = false →
        env.readByte (addr + i) ≠ none) →
      ∀ i, i < size → env.isSymbolic (addr + i) = false →
        (MemoryManager.readConcrete env addr size false)[i]? =
          env.readByte (addr + i)) := by
  rw [readConcrete_false_eq]
  cases h : MemoryManager.readBytesFrom env addr size with
  | none =>
    refine ⟨⟨fun _ => (readBytesFrom_none_iff env size addr).1 h, fun _ => rfl⟩, ?_⟩
    intro hnf
    obtain ⟨i, hi, h1, h2⟩ := (readBytesFrom_none_iff env size addr).1 h
    exact absurd h2 (hnf i hi h1)
  | some l =>
    obtain ⟨hlen, hget⟩ := readBytesFrom_get env size addr l h
    constructor
    · constructor
      · intro hnil
        have hnil' : l = [] := hnil
        subst hnil'
        simp at hlen
        omega
      · intro ⟨i, hi, h1, h2⟩
        have hcontra : MemoryManager.readBytesFrom env addr size = none :=
          (readBytesFrom_none_iff env size addr).2 ⟨i, hi, h1, h2⟩
        rw [h] at hcontra
        cases hcontra
    · intro _ i hi hsym
      rw [hget i hi, if_neg (by simp [hsym])]

/-- A concrete store for the C7 witness: address 17 is symbolic, everything
else reads concretely as the address modulo 256. -/
def envC7 : MemEnv :=
  { isSymbolic := fun a => a == 17
    readByte := fun a => some (a % 256)
    readBulk := fun _ _ => none
    isMapped := fun _ => true }

theorem readConcrete_skips_symbolic_witness :
    (MemoryManager.readConcrete envC7 16 3 false)[2]? = some 18 := by
  have h := (readConcrete_skips_symbolic envC7 16 3 (by decide)).2
    (by decide) 2 (by decide) (by decide)
  rw [h]
  decide

/-! ### Claim C10: skipped symbolic bytes are zero-filled in place -/

/-- Claim C10: a fault-free `readConcrete(addr, size, concretize=false)`
returns exactly `size` bytes, with `0x00` at every position whose address
held a symbolic byte; consequently the haystack `search()` runs `kmp` over
contains `0x00` at every symbolic byte position of its region. -/
theorem readConcrete_zero_fills_symbolic (env : MemEnv) (addr size : Nat)
    (hnf : ∀ i, i < size → env.isSymbolic (addr + i) = false →
      env.readByte (addr + i) ≠ none) :
    (MemoryManager.readConcrete env addr size false).length = size ∧
    (∀ i, i < size → env.isSymbolic (addr + i) = true →
       (MemoryManager.readConcrete env addr size false)[i]? = some 0) ∧
    (∀ e, e = addr + size →
       (MemoryManager.regionHaystack env addr e).length = size ∧
       ∀ i, i < size → env.isSymbolic (addr + i) = true →
         (MemoryManager.regionHaystack env addr e)[i]? = some 0) := by
  rw [readConcrete_false_eq]
  cases h : MemoryManager.readBytesFrom env addr size with
  | none =>
    obtain ⟨i, hi, h1, h2⟩ := (readBytesFrom_none_iff env size addr).1 h
    exact absurd h2 (hnf i hi h1)
  | some l =>
    obtain ⟨hlen, hget⟩ := readBytesFrom_get env size addr l h
    have hzero : ∀ i, i < size → env.isSymbolic (addr + i) = true →
        l[i]? = some 0 := by
      intro i hi hsym
      rw [hget i hi, if_pos hsym]
    refine ⟨hlen, hzero, ?_⟩
    intro e he
    have hhay : MemoryManager.regionHaystack env addr e = l := by
      rw [MemoryManager.regionHaystack, readConcrete_false_eq,
        show e - addr = size from by omega, h]
    rw [hhay]
    exact ⟨hlen, hzero⟩

/-- A concrete store for the C10 witness: address 33 is symbolic, everything
else reads concretely as 7. -/
def envC10 : MemEnv :=
  { isSymbolic := fun a => a == 33
    readByte := fun a => if a == 33 then none else some 7
    readBulk := fun _ _ => none
    isMapped := fun _ => true }

theorem readConcrete_zero_fills_symbolic_witness :
    (MemoryManager.readConcrete envC10 32 3 false).length = 3 ∧
    (MemoryManager.readConcrete envC10 32 3 false)[1]? = some 0 ∧
    (MemoryManager.regionHaystack envC10 32 35)[1]? = some 0 := by
  have h := readConcrete_zero_fills_symbolic envC10 32 3 (by decide)
  exact ⟨h.1, h.2.1 1 (by decide) (by decide),
    (h.2.2 35 (by decide)).2 1 (by decide) (by decide)⟩

/-! ### Helper lemmas for `search` -/

/-- The skip-front loop does not move when its start byte is mapped. -/
theorem skipFront_eq_of_mapped (im : Nat → Bool) (s e : Nat)
    (hm : im s = true) : MemoryManager.skipFront im s e = s := by
  rw [MemoryManager.skipFront]
  rw [dif_neg]
  simp [hm]

/-- The skip-front loop never moves backwards. -/
theorem skipFront_ge (im : Nat → Bool) (s e : Nat) :
    s ≤ MemoryManager.skipFront im s e := by
  by_cases h : im s = false ∧ s < e
  · rw [MemoryManager.skipFront, dif_pos h]
    have hrec := skipFront_ge im (s + 1) e
    omega
  · rw [MemoryManager.skipFront, dif_neg h]
termination_by e - s
decreasing_by omega

/-- Membership in the `kmp` result characterizes an in-bounds occurrence. -/
theorem kmp_mem (haystack needle : List Nat) (i : Nat) :
    i ∈ kmp haystack needle ↔
      i + needle.length ≤ haystack.length ∧
        (haystack.drop i).take needle.length = needle := by
  unfold kmp
  rw [List.mem_filter, List.mem_range]
  constructor
  · rintro ⟨h1, h2⟩
    exact ⟨by omega, by simpa using h2⟩
  · rintro ⟨h1, h2⟩
    exact ⟨by omega, by simpa using h2⟩

/-- Membership in the region-fold of `search`: an address is reported iff
some region reports it. -/
theorem mem_searchInRegions (env : MemEnv) (needle : List Nat) :
    ∀ (regions : List MemoryRegion) (acc : List Nat) (a : Nat),
      a ∈ regions.foldl
          (fun acc r => acc ++ MemoryManager.searchRegion env needle r) acc ↔
        a ∈ acc ∨ ∃ r ∈ regions, a ∈ MemoryManager.searchRegion env needle r := by
  intro regions
  induction regions with
  | nil => intro acc a; simp
  | cons r rs ih =>
    intro acc a
    rw [List.foldl_cons, ih]
    simp only [List.mem_append, List.mem_cons]
    constructor
    · rintro (⟨ha | ha⟩ | ⟨r2, hr2, ha⟩)
      · exact Or.inl ha
      · exact Or.inr ⟨r, Or.inl rfl, ha⟩
      · exact Or.inr ⟨r2, Or.inr hr2, ha⟩
    · rintro (ha | ⟨r2, (rfl | hr2), ha⟩)
      · exact Or.inl (Or.inl ha)
      · exact Or.inl (Or.inr ha)
      · exact Or.inr ⟨r2, hr2, ha⟩

/-- Every address reported by a region's search lies, together with the full
needle, inside that region. -/
theorem searchRegion_mem_bounds (env : MemEnv) (needle : List Nat)
    (r : MemoryRegion) (a : Nat)
    (ha : a ∈ MemoryManager.searchRegion env needle r) :
    r.start ≤ a ∧ a + needle.length ≤ r.end_ := by
  unfold MemoryManager.searchRegion at ha
  by_cases hguard : MemoryManager.skipFront env.isMapped r.start r.end_ ≥ r.end_
  · simp [hguard] at ha
  · rw [if_neg hguard, List.mem_map] at ha
    obtain ⟨i, hi, rfl⟩ := ha
    have hk := (kmp_mem _ needle i).1 hi
    have hlen := readConcrete_length_le env
      (MemoryManager.skipFront env.isMapped r.start r.end_)
      (r.end_ - MemoryManager.skipFront env.isMapped r.start r.end_)
    have hge := skipFront_ge env.isMapped r.start r.end_
    have hhay : (MemoryManager.regionHaystack env
        (MemoryManager.skipFront env.isMapped r.start r.end_) r.end_).length ≤
        r.end_ - MemoryManager.skipFront env.isMapped r.start r.end_ := hlen
    omega

/-! ### Claim C6: search finds intra-region matches and only those -/

/-- Claim C6: over a single contiguous mapped region whose bytes are fully
accessible and concrete, `search(needle)` reports `region.start + k` for an
occurrence of the needle at offset `k`, reports nothing from a region not
containing the needle, and never reports a match that does not lie entirely
inside one region (so matches spanning two regions are never found). -/
theorem search_single_region (env : MemEnv) (r : MemoryRegion)
    (needle : List Nat) (bytes : Nat → Nat)
    (hr : r.start < r.end_)
    (hmap : ∀ i, i < r.end_ - r.start → env.isMapped (r.start + i) = true)
    (hsym : ∀ i, i < r.end_ - r.start → env.isSymbolic (r.start + i) = false)
    (hread : ∀ i, i < r.end_ - r.start →
      env.readByte (r.start + i) = some (bytes i)) :
    (∀ k, k + needle.length ≤ r.end_ - r.start →
       (∀ j, j < needle.length → needle[j]? = some (bytes (k + j))) →
       r.start + k ∈ MemoryManager.searchInRegions env [r] needle) ∧
    ((∀ k, k + needle.length ≤ r.end_ - r.start →
        ∃ j, j < needle.length ∧ needle[j]? ≠ some (bytes (k + j))) →
       MemoryManager.searchInRegions env [r] needle = []) ∧
    (∀ (regions : List MemoryRegion) (a : Nat),
       a ∈ MemoryManager.searchInRegions env regions needle →
       ∃ r2 ∈ regions, r2.start ≤ a ∧ a + needle.length ≤ r2.end_) := by
  have hs0 : MemoryManager.skipFront env.isMapped r.start r.end_ = r.start :=
    skipFront_eq_of_mapped env.isMapped r.start r.end_
      (by simpa using hmap 0 (by omega))
  have hnf : ∀ i, i < r.end_ - r.start →
      env.isSymbolic (r.start + i) = false →
      env.readByte (r.start + i) ≠ none := by
    intro i hi _
    rw [hread i hi]
    exact fun hc => Option.noConfusion hc
  have hhaysome : ∃ l, MemoryManager.readBytesFrom env r.start
      (r.end_ - r.start) = some l := by
    cases h : MemoryManager.readBytesFrom env r.start (r.end_ - r.start) with
    | none =>
      obtain ⟨i, hi, h1, h2⟩ :=
        (readBytesFrom_none_iff env (r.end_ - r.start) r.start).1 h
      exact absurd h2 (hnf i hi h1)
    | some l => exact ⟨l, rfl⟩
  obtain ⟨l, hl⟩ := hhaysome
  obtain ⟨hlen, hget⟩ := readBytesFrom_get env (r.end_ - r.start) r.start l hl
  have hgetb : ∀ i, i < r.end_ - r.start → l[i]? = some (bytes i) := by
    intro i hi
    rw [hget i hi, if_neg (by simp [hsym i hi]), hread i hi]
  have hhay : MemoryManager.regionHaystack env r.start r.end_ = l := by
    rw [MemoryManager.regionHaystack, readConcrete_false_eq, hl]
  have hsearch : MemoryManager.searchInRegions env [r] needle =
      (kmp l needle).map (· + r.start) := by
    unfold MemoryManager.searchInRegions MemoryManager.searchRegion
    rw [List.foldl_cons, List.foldl_nil, List.nil_append, hs0,
      if_neg (by omega), hhay]
  refine ⟨?_, ?_, ?_⟩
  · intro k hk hneedle
    rw [hsearch, List.mem_map]
    refine ⟨k, ?_, by omega⟩
    rw [kmp_mem]
    refine ⟨by omega, ?_⟩
    apply List.ext_getElem?
    intro j
    by_cases hj : j < needle.length
    · rw [List.getElem?_take_of_lt hj, List.getElem?_drop, hneedle j hj,
        hgetb (k + j) (by omega)]
    · rw [List.getElem?_take_eq_none (by omega), List.getElem?_eq_none (by omega)]
  · intro hmiss
    rw [hsearch]
    rw [List.map_eq_nil_iff]
    rw [List.eq_nil_iff_forall_not_mem]
    intro k hk
    rw [kmp_mem] at hk
    obtain ⟨hk1, hk2⟩ := hk
    obtain ⟨j, hj, hjne⟩ := hmiss k (by omega)
    apply hjne
    rw [← hk2, List.getElem?_take_of_lt hj, List.getElem?_drop,
      hgetb (k + j) (by omega)]
  · intro regions a ha
    rw [MemoryManager.searchInRegions] at ha
    rcases (mem_searchInRegions env needle regions [] a).1 ha with hc | ⟨r2, hr2, ha2⟩
    · cases hc
    · exact ⟨r2, hr2, searchRegion_mem_bounds env needle r2 a ha2⟩

/-- A concrete store for the C6 witness: one region of 8 fully mapped,
fully concrete bytes at addresses 256..263 containing `[1, 2]` at offset
4. -/
def envC6 : MemEnv :=
  { isSymbolic := fun _ => false
    readByte := fun a => some (if a == 260 then 1 else if a == 261 then 2 else 0)
    readBulk := fun _ _ => none
    isMapped := fun a => decide (256 ≤ a ∧ a < 264) }

/-- The byte content of the C6 witness region, indexed from the region
start. -/
def bytesC6 : Nat → Nat :=
  fun i => if i == 4 then 1 else if i == 5 then 2 else 0

theorem search_single_region_witness :
    256 + 4 ∈ MemoryManager.searchInRegions envC6 [⟨256, 264, 1⟩] [1, 2] :=
  (search_single_region envC6 ⟨256, 264, 1⟩ [1, 2] bytesC6 (by decide)
      (by decide) (by decide) (by decide)).1 4 (by decide) (by decide)

/-! ### Helper lemmas for `getMapInfo` -/

/-- The downward probe stops at the first unmapped page below its start. -/
theorem probeDown_eq (im : Nat → Bool) :
    ∀ (k fuel a : Nat), k ≤ fuel → k * MemoryManager.pageSize ≤ a →
      (∀ j, j < k → im (a - j * MemoryManager.pageSize) = true) →
      im (a - k * MemoryManager.pageSize) = false →
      MemoryManager.probeDown im fuel a = a - k * MemoryManager.pageSize := by
  intro k
  induction k with
  | zero =>
    intro fuel a _ _ _ hun
    simp only [Nat.zero_mul, Nat.sub_zero] at hun ⊢
    cases fuel with
    | zero => rfl
    | succ f => rw [MemoryManager.probeDown, if_neg (by simp [hun])]
  | succ n ih =>
    intro fuel a hk hge hmap hun
    cases fuel with
    | zero => omega
    | succ f =>
      have h0 : im a = true := by simpa using hmap 0 (by omega)
      rw [MemoryManager.probeDown, if_pos h0]
      have hps : MemoryManager.pageSize = 4096 := rfl
      have harith : ∀ j : Nat, a - MemoryManager.pageSize -
          j * MemoryManager.pageSize = a - (j + 1) * MemoryManager.pageSize := by
        intro j
        rw [hps]
        omega
      rw [ih f (a - MemoryManager.pageSize) (by omega)
        (by rw [hps] at hge ⊢; omega)
        (fun j hj => by rw [harith j]; exact hmap (j + 1) (by omega))
        (by rw [harith n]; exact hun), harith n]

/-- The upward probe stops at the first unmapped page above its start. -/
theorem probeUp_eq (im : Nat → Bool) :
    ∀ (k fuel a : Nat), k ≤ fuel →
      (∀ j, j < k → im (a + j * MemoryManager.pageSize) = true) →
      im (a + k * MemoryManager.pageSize) = false →
      MemoryManager.probeUp im fuel a = a + k * MemoryManager.pageSize := by
  intro k
  induction k with
  | zero =>
    intro fuel a _ _ hun
    simp only [Nat.zero_mul, Nat.add_zero] at hun ⊢
    cases fuel with
    | zero => rfl
    | succ f => rw [MemoryManager.probeUp, if_neg (by simp [hun])]
  | succ n ih =>
    intro fuel a hk hmap hun
    cases fuel with
    | zero => omega
    | succ f =>
      have h0 : im a = true := by simpa using hmap 0 (by omega)
      rw [MemoryManager.probeUp, if_pos h0]
      have hps : MemoryManager.pageSize = 4096 := rfl
      have harith : ∀ j : Nat, a + MemoryManager.pageSize +
          j * MemoryManager.pageSize = a + (j + 1) * MemoryManager.pageSize := by
        intro j
        rw [hps]
        omega
      rw [ih f (a + MemoryManager.pageSize) (by omega)
        (fun j hj => by rw [harith j]; exact hmap (j + 1) (by omega))
        (by rw [harith n]; exact hun), harith n]

/-- Keyed-set insertion introduces no region beyond the inserted one. -/
theorem mem_setInsert (r x : MemoryRegion) :
    ∀ (s : List MemoryRegion), x ∈ setInsert s r → x ∈ s ∨ x = r := by
  intro s
  induction s with
  | nil =>
    intro h
    rw [setInsert] at h
    exact Or.inr (by simpa using h)
  | cons y ys ih =>
    intro h
    rw [setInsert] at h
    by_cases h1 : r.start < y.start
    · rw [if_pos h1] at h
      rcases List.mem_cons.1 h with rfl | h2
      · exact Or.inr rfl
      · exact Or.inl h2
    · rw [if_neg h1] at h
      by_cases h2 : y.start < r.start
      · rw [if_pos h2] at h
        rcases List.mem_cons.1 h with rfl | h3
        · exact Or.inl (List.mem_cons_self _ _)
        · rcases ih h3 with h4 | h4
          · exact Or.inl (List.mem_cons_of_mem _ h4)
          · exact Or.inr h4
      · rw [if_neg h2] at h
        exact Or.inl h

/-- Folding keyed-set insertion over a region list introduces no region
beyond the accumulator and the list. -/
theorem mem_foldl_setInsert (x : MemoryRegion) :
    ∀ (l acc : List MemoryRegion), x ∈ l.foldl setInsert acc →
      x ∈ acc ∨ x ∈ l := by
  intro l
  induction l with
  | nil => intro acc h; exact Or.inl h
  | cons y ys ih =>
    intro acc h
    rw [List.foldl_cons] at h
    rcases ih (setInsert acc y) h with h1 | h1
    · rcases mem_setInsert y x acc h1 with h2 | rfl
      · exact Or.inl h2
      · exact Or.inr (List.mem_cons_self _ _)
    · exact Or.inr (List.mem_cons_of_mem _ h1)

/-- Every region returned by `getMapInfo` is either an engine-reported
region or the synthesized stack region. -/
theorem mem_getMapInfo (eng : List MemoryRegion) (im : Nat → Bool)
    (rsp fuel : Nat) (x : MemoryRegion)
    (hx : x ∈ MemoryManager.getMapInfo eng im rsp fuel) :
    x ∈ eng ∨ x = MemoryManager.stackRegion im rsp fuel := by
  rcases mem_setInsert _ x _ hx with h1 | h1
  · rcases mem_foldl_setInsert x eng [] h1 with h2 | h2
    · cases h2
    · exact Or.inl h2
  · exact Or.inr h1

/-! ### Claim C5: region overlap and the synthesized stack region -/

/-- Claim C5 counterexample.  First part: with the engine reporting a
region `[0, 0x3000)` and only the two pages at `0x1000` and `0x2000`
mapped, `getMapInfo` returns both that region and a synthesized stack
region `[0x1000, 0x2000)` overlapping it — the returned set does contain
two distinct overlapping regions.  Second part: when only the single page
holding the stack pointer is mapped, the synthesized stack region
degenerates to `start = end`, so its start is not strictly less than its
end. -/
theorem getMapInfo_not_overlap_free :
    ((⟨0, 12288, 1⟩ : MemoryRegion) ∈
        MemoryManager.getMapInfo [⟨0, 12288, 1⟩]
          (fun a => a == 4096 || a == 8192) 4660 8 ∧
      MemoryManager.stackRegion (fun a => a == 4096 || a == 8192) 4660 8 ∈
        MemoryManager.getMapInfo [⟨0, 12288, 1⟩]
          (fun a => a == 4096 || a == 8192) 4660 8 ∧
      overlaps ⟨0, 12288, 1⟩
        (MemoryManager.stackRegion (fun a => a == 4096 || a == 8192) 4660 8) ∧
      (⟨0, 12288, 1⟩ : MemoryRegion) ≠
        MemoryManager.stackRegion (fun a => a == 4096 || a == 8192) 4660 8) ∧
    ¬ (MemoryManager.stackRegion (fun a => a == 8192) 9029 8).start <
        (MemoryManager.stackRegion (fun a => a == 8192) 9029 8).end_ := by
  decide

/-- Claim C5 as amended: provided the engine-reported regions are pairwise
non-overlapping and none of them overlaps the probed stack region, the
region set returned by `getMapInfo` contains no two distinct overlapping
regions; and provided the stack-pointer page is mapped, an unmapped page is
reached within the probing fuel on each side without underflow, and the
stack spans at least two consecutive mapped pages (`3 ≤ kd + ku`), the
synthesized stack region has a page-aligned start strictly less than its
end.  (`kd`/`ku` are the page distances from the stack-pointer page to the
first unmapped page below/above.) -/
theorem getMapInfo_amended (eng : List MemoryRegion) (im : Nat → Bool)
    (rsp fuel kd ku : Nat)
    (hkdf : kd ≤ fuel) (hkuf : ku ≤ fuel)
    (hkd1 : 1 ≤ kd) (hku1 : 1 ≤ ku) (hsum : 3 ≤ kd + ku)
    (hge : kd * MemoryManager.pageSize ≤ MemoryManager.pageAlign rsp)
    (hdmap : ∀ j, j < kd →
      im (MemoryManager.pageAlign rsp - j * MemoryManager.pageSize) = true)
    (hdun : im (MemoryManager.pageAlign rsp - kd * MemoryManager.pageSize) = false)
    (humap : ∀ j, j < ku →
      im (MemoryManager.pageAlign rsp + j * MemoryManager.pageSize) = true)
    (huun : im (MemoryManager.pageAlign rsp + ku * MemoryManager.pageSize) = false)
    (hengPair : ∀ r1 ∈ eng, ∀ r2 ∈ eng, overlaps r1 r2 → r1 = r2)
    (hstackDisj : ∀ r ∈ eng,
      ¬ overlaps r (MemoryManager.stackRegion im rsp fuel)) :
    (∀ r1 ∈ MemoryManager.getMapInfo eng im rsp fuel,
       ∀ r2 ∈ MemoryManager.getMapInfo eng im rsp fuel,
         overlaps r1 r2 → r1 = r2) ∧
    (MemoryManager.stackRegion im rsp fuel).start % MemoryManager.pageSize = 0 ∧
    (MemoryManager.stackRegion im rsp fuel).start <
      (MemoryManager.stackRegion im rsp fuel).end_ := by
  have hdown := probeDown_eq im kd fuel (MemoryManager.pageAlign rsp)
    hkdf hge hdmap hdun
  have hup := probeUp_eq im ku fuel (MemoryManager.pageAlign rsp)
    hkuf humap huun
  have hstart : (MemoryManager.stackRegion im rsp fuel).start =
      MemoryManager.pageAlign rsp - kd * MemoryManager.pageSize +
        MemoryManager.pageSize := by
    rw [MemoryManager.stackRegion, hdown]
  have hend : (MemoryManager.stackRegion im rsp fuel).end_ =
      MemoryManager.pageAlign rsp + ku * MemoryManager.pageSize -
        MemoryManager.pageSize := by
    rw [MemoryManager.stackRegion, hup]
  have hps : MemoryManager.pageSize = 4096 := rfl
  have hal : MemoryManager.pageAlign rsp = rsp / 4096 * 4096 := rfl
  refine ⟨?_, ?_, ?_⟩
  · intro r1 h1 r2 h2 hov
    rcases mem_getMapInfo eng im rsp fuel r1 h1 with hm1 | rfl <;>
      rcases mem_getMapInfo eng im rsp fuel r2 h2 with hm2 | hm2
    · exact hengPair r1 hm1 r2 hm2 hov
    · exact absurd (hm2 ▸ hov) (hstackDisj r1 hm1)
    · exact absurd ⟨hov.2, hov.1⟩ (hstackDisj r2 hm2)
    · exact hm2.symm
  · rw [hstart, hps, hal]
    omega
  · rw [hstart, hend, hps]
    rw [hps] at hge
    omega

/-- The mapping predicate of the C5 amended-claim witness: exactly the two
pages at 8192 and 12288 are mapped. -/
def imC5 : Nat → Bool :=
  fun a => a == 8192 || a == 12288

theorem getMapInfo_amended_witness :
    (∀ r1 ∈ MemoryManager.getMapInfo [⟨20480, 24576, 1⟩] imC5 8200 8,
       ∀ r2 ∈ MemoryManager.getMapInfo [⟨20480, 24576, 1⟩] imC5 8200 8,
         overlaps r1 r2 → r1 = r2) ∧
    (MemoryManager.stackRegion imC5 8200 8).start % MemoryManager.pageSize = 0 ∧
    (MemoryManager.stackRegion imC5 8200 8).start <
      (MemoryManager.stackRegion imC5 8200 8).end_ :=
  getMapInfo_amended [⟨20480, 24576, 1⟩] imC5 8200 8 1 2
    (by decide) (by decide) (by decide) (by decide) (by decide) (by decide)
    (by decide) (by decide) (by decide) (by decide) (by decide) (by decide)

theorem skipped_input_state_no_send_witness :
    (∀ op ∈ (visitInputState ⟨false, false, fun _ => "bv", "solve"⟩ ⟨5, 2⟩
        [] 3 7 ⟨[1, 2, 3], 0, 0⟩).1, op.isSend = false) ∧
    (visitInputState ⟨false, false, fun _ => "bv", "solve"⟩ ⟨5, 2⟩
        [] 3 7 ⟨[1, 2, 3], 0, 0⟩).2 =
      InputStream.skip ⟨[1, 2, 3], 0, 0⟩ 7 ∧
    (InputStream.skip ⟨[1, 2, 3], 0, 0⟩ 7).nrBytesSkipped = 0 + 7 :=
  skipped_input_state_no_send ⟨false, false, fun _ => "bv", "solve"⟩ ⟨5, 2⟩
    [] 3 7 ⟨[1, 2, 3], 0, 0⟩ (by decide) (by decide) (by decide)

end CraxCore
